import Mathlib

/-!
Shallow embedding of `dirdiff.py` (a modified `filecmp`): the file-equality
oracle `cmp` with its process-wide bounded cache, the chunked content
comparison `_do_cmp`, the size-similarity heuristic `_is_similar`, the
directory-pair phases `phase1`/`phase2`, and `cmpfiles`/`_cmp`.

The filesystem is modelled as a partial map from path strings to `File`
records carrying the stat signature fields (`S_IFMT` type tag, `st_size`,
`st_mtime`) together with the byte content of the file; `os.stat` failing
with `OSError` is `none`.  Exceptions are modelled with `Except`:
`Err.osError` for `OSError`, `Err.zeroDivision` for `ZeroDivisionError`
(raised by `s1/s2` in `_is_similar` when `s2 == 0`).  The mutable module
cache `_cache` is threaded explicitly through `cmp`.
-/

namespace Dirdiff

/-- The value of `stat.S_IFMT(st.st_mode)`: regular file, directory, or any other file
type.  All non-regular non-directory types are collapsed into `other`
because every code path in `dirdiff.py` treats them alike (`cmp` only tests
against `S_IFREG`; `phase2` sends any such entry to `common_funny` whether
or not the two type tags coincide). -/
inductive FType where
  | reg
  | dir
  | other
deriving DecidableEq

/-- One filesystem entry: the stat fields used by the code plus the byte
content (as a list of bytes) that `open(f, 'rb')` would read. -/
structure File where
  ftype : FType
  size : Nat
  mtime : Int
  content : List Nat
deriving DecidableEq

/-- The filesystem: `os.stat p` succeeds with a `File` or raises `OSError`. -/
abbrev FS := String → Option File

/-- Exceptions that can escape the embedded functions. -/
inductive Err where
  | osError
  | zeroDivision
deriving DecidableEq

/-- The signature `_sig(st)`: the tuple `(S_IFMT(st.st_mode), st.st_size, st.st_mtime)`. -/
abbrev Sig := FType × Nat × Int

def _sig (st : File) : Sig := (st.ftype, st.size, st.mtime)

/-- Cache keys: the tuple `(f1, f2, s1, s2)` used at `_cache.get(...)`. -/
abbrev Key := String × String × Sig × Sig

/-- The module-level dict `_cache`, as an association list in insertion
order (Python dicts preserve insertion order). -/
abbrev Cache := List (Key × Bool)

/-- Lookup `d.get(k)` on a Python dict. -/
def dictGet (c : Cache) (k : Key) : Option Bool :=
  match c with
  | [] => none
  | (k', v) :: rest => if k' = k then some v else dictGet rest k

/-- Assignment `d[k] = v` on a Python dict: replace in place if the key is present,
otherwise append at the end. -/
def dictSet (c : Cache) (k : Key) (v : Bool) : Cache :=
  match c with
  | [] => [(k, v)]
  | (k', v') :: rest => if k' = k then (k, v) :: rest else (k', v') :: dictSet rest k v

/-- The test `_is_similar(s1, s2)`: `(s1/s2 >= 0.8) and (s1/s2 <= 1.25)`, where `/`
is Python true division of the two integer sizes, raising
`ZeroDivisionError` when `s2 == 0`.  The quotient is modelled exactly in
`ℚ`. -/
def _is_similar (s1 s2 : Nat) : Except Err Bool :=
  if s2 = 0 then .error .zeroDivision
  else .ok (decide ((4 : ℚ) / 5 ≤ (s1 : ℚ) / (s2 : ℚ)) && decide ((s1 : ℚ) / (s2 : ℚ) ≤ (5 : ℚ) / 4))

/-- The chunk size `BUFSIZE = 8*1024`. -/
def BUFSIZE : Nat := 8 * 1024

/-- The loop of `_do_cmp(f1, f2)` acting on the two byte streams: read `BUFSIZE` bytes
from each file, return `False` on the first differing pair of chunks,
`True` once both streams are exhausted (`not b1` after equal chunks). -/
def _do_cmp (b1 b2 : List Nat) : Bool :=
  if b1.take BUFSIZE ≠ b2.take BUFSIZE then false
  else if _hc : (b1.take BUFSIZE).isEmpty then true
  else _do_cmp (b1.drop BUFSIZE) (b2.drop BUFSIZE)
termination_by b1.length
decreasing_by
  have hb1 : b1 ≠ [] := by
    intro hnil
    subst hnil
    simp_all
  have h1 : 0 < b1.length := List.length_pos.mpr hb1
  have h2 : (List.drop BUFSIZE b1).length = b1.length - BUFSIZE := List.length_drop _ _
  have hbuf : 0 < BUFSIZE := by decide
  omega

/-- Lines 73-75 of `cmp`: `if len(_cache) > 100: clear_cache()` followed by
`_cache[f1, f2, s1, s2] = outcome`. -/
def cacheUpdate (c : Cache) (k : Key) (v : Bool) : Cache :=
  dictSet (if 100 < c.length then [] else c) k v

/-- The oracle `cmp(f1, f2, shallow)`: stat both paths (raising `OSError` when either
stat fails), return `False` unless both are regular files, in shallow mode
return `True` when `_is_similar` accepts the two sizes, return `False` when
the sizes (`s1[1] != s2[1]`) differ, and otherwise consult the cache,
running `_do_cmp` and storing its outcome (after the bound check) on a
miss. -/
def cmp (fs : FS) (f1 f2 : String) (shallow : Bool) (cache : Cache) :
    Except Err (Bool × Cache) :=
  match fs f1, fs f2 with
  | some st1, some st2 =>
    let s1 := _sig st1
    let s2 := _sig st2
    if s1.1 ≠ FType.reg ∨ s2.1 ≠ FType.reg then .ok (false, cache)
    else
      match (if shallow then _is_similar st1.size st2.size else .ok false) with
      | .error e => .error e
      | .ok true => .ok (true, cache)
      | .ok false =>
        if s1.2.1 ≠ s2.2.1 then .ok (false, cache)
        else
          match dictGet cache (f1, f2, s1, s2) with
          | some outcome => .ok (outcome, cache)
          | none =>
            let outcome := _do_cmp st1.content st2.content
            .ok (outcome, cacheUpdate cache (f1, f2, s1, s2) outcome)
  | _, _ => .error .osError

/-- Project the boolean result of a `cmp` call, dropping the cache state. -/
def resultBool : Except Err (Bool × Cache) → Except Err Bool
  | .error e => .error e
  | .ok (b, _) => .ok b

/-- The cache state after a `cmp` call (the module-level `_cache` is left
unchanged when `cmp` raises, since both the stat calls and the division
happen before any cache mutation). -/
def cmpCache (fs : FS) (f1 f2 : String) (sh : Bool) (c : Cache) : Cache :=
  match cmp fs f1 f2 sh c with
  | .ok (_, c') => c'
  | .error _ => c

/-- Path join `os.path.join(a, x)` on POSIX. -/
def join (a x : String) : String := a ++ "/" ++ x

/-- The classifier `_cmp(a, b, sh)`: `0` for equal, `1` for different, `2` for funny cases;
only `OSError` is caught (`ZeroDivisionError` propagates). -/
def _cmp (fs : FS) (a b : String) (sh : Bool) (c : Cache) :
    Except Err (Fin 3 × Cache) :=
  match cmp fs a b sh c with
  | .ok (r, c') => .ok (if r then 0 else 1, c')
  | .error .osError => .ok (2, c)
  | .error e => .error e

/-- The routine `cmpfiles(a, b, common, shallow)`: route each common name into
`res[_cmp(ax, bx, shallow)]`, i.e. the (equal, different, funny) triple, in
iteration order, threading the cache through the successive `cmp` calls;
an uncaught exception from `_cmp` aborts the whole call. -/
def cmpfiles (fs : FS) (a b : String) (common : List String) (sh : Bool)
    (c : Cache) :
    Except Err ((List String × List String × List String) × Cache) :=
  match common with
  | [] => .ok (([], [], []), c)
  | x :: rest =>
    match _cmp fs (join a x) (join b x) sh c with
    | .error e => .error e
    | .ok (i, c1) =>
      match cmpfiles fs a b rest sh c1 with
      | .error e => .error e
      | .ok ((s, d, f), c2) =>
        if i = 0 then .ok ((x :: s, d, f), c2)
        else if i = 1 then .ok ((s, x :: d, f), c2)
        else .ok ((s, d, x :: f), c2)

/-- The helper `_filter(flist, skip)`: `filterfalse(skip.__contains__, flist)`. -/
def _filter (flist skip : List String) : List String :=
  flist.filter (fun x => ! skip.contains x)

/-- Python dict update `d[k] = v` for the string-keyed dicts of `phase1`:
replace the value in place when the key is present, else append. -/
def dinsert (d : List (String × String)) (k v : String) :
    List (String × String) :=
  match d with
  | [] => [(k, v)]
  | (k', v') :: rest =>
    if k' = k then (k, v) :: rest else (k', v') :: dinsert rest k v

/-- The dict `dict(zip(ks, vs))` of a list of key-value pairs: fold the pairs into
an empty dict, later pairs overwriting earlier ones with the same key. -/
def dictOfZip (l : List (String × String)) : List (String × String) :=
  l.foldl (fun d p => dinsert d p.1 p.2) []

/-- Membership `k in d` for the above dicts. -/
def hasKey (d : List (String × String)) (k : String) : Bool :=
  d.any (fun p => p.1 == k)

/-- Phase `phase1`: with `a = dict(zip(map(normcase, left_list), left_list))` and
`b` likewise, `common = [a[k] for k in a if k in b]`,
`left_only = [a[k] for k in a if k not in b]` and
`right_only = [b[k] for k in b if k not in a]`, iterating dicts in
insertion order (`a[k]` is the value stored beside `k`).  The host's
`os.path.normcase` is the parameter `nc`. -/
def phase1 (nc : String → String) (left_list right_list : List String) :
    List String × List String × List String :=
  let a := dictOfZip (left_list.map (fun x => (nc x, x)))
  let b := dictOfZip (right_list.map (fun x => (nc x, x)))
  ((a.filter (fun p => hasKey b p.1)).map Prod.snd,
   (a.filter (fun p => ! hasKey b p.1)).map Prod.snd,
   (b.filter (fun p => ! hasKey a p.1)).map Prod.snd)

/-- The classification `phase2` gives one common name `x`: `0` =
`common_dirs`, `1` = `common_files`, `2` = `common_funny`. -/
def classOf (fs : FS) (left right x : String) : Fin 3 :=
  match fs (join left x), fs (join right x) with
  | some a_stat, some b_stat =>
    if a_stat.ftype ≠ b_stat.ftype then 2
    else if a_stat.ftype = FType.dir then 0
    else if a_stat.ftype = FType.reg then 1
    else 2
  | _, _ => 2

/-- Phase `phase2`: stat both sides of every common name (`ok = 0` when either
stat raises `OSError`) and append the name to `common_dirs`,
`common_files` or `common_funny` according to the `S_IFMT` type tags. -/
def phase2 (fs : FS) (left right : String) (common : List String) :
    List String × List String × List String :=
  match common with
  | [] => ([], [], [])
  | x :: rest =>
    let (d, f, fu) := phase2 fs left right rest
    match fs (join left x), fs (join right x) with
    | some a_stat, some b_stat =>
      if a_stat.ftype ≠ b_stat.ftype then (d, f, x :: fu)
      else if a_stat.ftype = FType.dir then (x :: d, f, fu)
      else if a_stat.ftype = FType.reg then (d, x :: f, fu)
      else (d, f, x :: fu)
    | _, _ => (d, f, x :: fu)

/-! ### Properties of the chunked content comparison -/

theorem _do_cmp_eq_true_iff (b1 b2 : List Nat) : _do_cmp b1 b2 = true ↔ b1 = b2 := by
  induction b1, b2 using _do_cmp.induct with
  | case1 b1 b2 hne =>
    rw [_do_cmp, if_pos hne]
    simp only [Bool.false_eq_true, false_iff]
    intro h
    exact hne (by rw [h])
  | case2 b1 b2 heq hemp =>
    have heq' : List.take BUFSIZE b1 = List.take BUFSIZE b2 := not_ne_iff.mp heq
    rw [_do_cmp, if_neg heq, dif_pos hemp]
    have h1 : b1 = [] := by
      rcases List.take_eq_nil_iff.mp (List.isEmpty_iff.mp hemp) with h | h
      · exact absurd h (by decide)
      · exact h
    have h2 : b2 = [] := by
      rcases List.take_eq_nil_iff.mp (heq'.symm.trans (List.isEmpty_iff.mp hemp)) with h | h
      · exact absurd h (by decide)
      · exact h
    simp [h1, h2]
  | case3 b1 b2 heq hemp ih =>
    have heq' : List.take BUFSIZE b1 = List.take BUFSIZE b2 := not_ne_iff.mp heq
    rw [_do_cmp, if_neg heq, dif_neg hemp, ih]
    constructor
    · intro h
      calc b1 = b1.take BUFSIZE ++ b1.drop BUFSIZE := (List.take_append_drop _ _).symm
        _ = b2.take BUFSIZE ++ b2.drop BUFSIZE := by rw [heq', h]
        _ = b2 := List.take_append_drop _ _
    · intro h
      rw [h]

theorem _do_cmp_comm (b1 b2 : List Nat) : _do_cmp b1 b2 = _do_cmp b2 b1 := by
  by_cases h : b1 = b2
  · rw [h]
  · have hx : _do_cmp b1 b2 = false := by
      cases hv : _do_cmp b1 b2
      · rfl
      · exact absurd ((_do_cmp_eq_true_iff b1 b2).mp hv) h
    have hy : _do_cmp b2 b1 = false := by
      cases hv : _do_cmp b2 b1
      · rfl
      · exact absurd ((_do_cmp_eq_true_iff b2 b1).mp hv).symm h
    rw [hx, hy]

theorem _do_cmp_eq_decide (b1 b2 : List Nat) : _do_cmp b1 b2 = decide (b1 = b2) := by
  by_cases h : b1 = b2
  · rw [h]
    simp [(_do_cmp_eq_true_iff b2 b2).mpr rfl]
  · rw [decide_eq_false h]
    cases hv : _do_cmp b1 b2
    · rfl
    · exact absurd ((_do_cmp_eq_true_iff b1 b2).mp hv) h

/-! ### The cache invariant -/

/-- Every entry the program ever stores in `_cache` is the `_do_cmp` outcome
for its key's two paths, recorded together with their signatures at the
time; an entry whose signatures still match the filesystem therefore equals
the `_do_cmp` of the current contents.  The empty cache (the state after
`clear_cache()`) satisfies this trivially. -/
def CacheOK (fs : FS) (c : Cache) : Prop :=
  ∀ p1 p2 s1 s2 v, ((p1, p2, s1, s2), v) ∈ c →
    ∀ st1 st2, fs p1 = some st1 → fs p2 = some st2 →
      _sig st1 = s1 → _sig st2 = s2 → v = _do_cmp st1.content st2.content

theorem dictGet_mem {c : Cache} {k : Key} {v : Bool} (h : dictGet c k = some v) :
    (k, v) ∈ c := by
  induction c with
  | nil => simp [dictGet] at h
  | cons p rest ih =>
    obtain ⟨k', v'⟩ := p
    rw [dictGet] at h
    by_cases hk : k' = k
    · rw [if_pos hk] at h
      obtain rfl : v' = v := by simpa using h
      subst hk
      exact List.mem_cons_self _ _
    · rw [if_neg hk] at h
      exact List.mem_cons_of_mem _ (ih h)

/-! ### Evaluation lemmas for the branches of `cmp` -/

theorem cmp_stat_fail {fs : FS} {f1 f2 : String} {sh : Bool} {c : Cache}
    (h : fs f1 = none ∨ fs f2 = none) :
    cmp fs f1 f2 sh c = .error .osError := by
  rcases h with h | h <;>
    · rw [cmp]
      rcases hf1 : fs f1 with _ | st1 <;> rcases hf2 : fs f2 with _ | st2 <;>
        simp_all

theorem cmp_not_reg {fs : FS} {f1 f2 : String} {st1 st2 : File} {sh : Bool}
    {c : Cache} (h1 : fs f1 = some st1) (h2 : fs f2 = some st2)
    (hnr : st1.ftype ≠ FType.reg ∨ st2.ftype ≠ FType.reg) :
    cmp fs f1 f2 sh c = .ok (false, c) := by
  rw [cmp]
  rw [h1, h2]
  simp only [_sig]
  rw [if_pos hnr]

theorem cmp_deep_size_ne {fs : FS} {f1 f2 : String} {st1 st2 : File}
    {c : Cache} (h1 : fs f1 = some st1) (h2 : fs f2 = some st2)
    (hr1 : st1.ftype = FType.reg) (hr2 : st2.ftype = FType.reg)
    (hsz : st1.size ≠ st2.size) :
    cmp fs f1 f2 false c = .ok (false, c) := by
  rw [cmp]
  rw [h1, h2]
  simp only [_sig, if_false]
  rw [if_neg (by simp [hr1, hr2])]
  simp only [Bool.false_eq_true, if_neg (by decide : ¬ False)]
  rw [if_pos hsz]

theorem cmp_deep_eval {fs : FS} {f1 f2 : String} {st1 st2 : File} {c : Cache}
    (h1 : fs f1 = some st1) (h2 : fs f2 = some st2)
    (hr1 : st1.ftype = FType.reg) (hr2 : st2.ftype = FType.reg)
    (hsz : st1.size = st2.size) (hcache : CacheOK fs c) :
    resultBool (cmp fs f1 f2 false c) = .ok (_do_cmp st1.content st2.content) := by
  rw [cmp]
  rw [h1, h2]
  simp only [_sig]
  rw [if_neg (by simp [hr1, hr2])]
  simp only [Bool.false_eq_true, if_neg (by decide : ¬ False)]
  rw [if_neg (by simpa using hsz)]
  rcases hget : dictGet c (f1, f2, (st1.ftype, st1.size, st1.mtime),
      (st2.ftype, st2.size, st2.mtime)) with _ | v
  · simp [resultBool]
  · have hv : v = _do_cmp st1.content st2.content :=
      hcache f1 f2 _ _ v (dictGet_mem hget) st1 st2 h1 h2 rfl rfl
    simp [resultBool, hv]

theorem cmp_deep_miss {fs : FS} {f1 f2 : String} {st1 st2 : File} {c : Cache}
    (h1 : fs f1 = some st1) (h2 : fs f2 = some st2)
    (hr1 : st1.ftype = FType.reg) (hr2 : st2.ftype = FType.reg)
    (hsz : st1.size = st2.size)
    (hget : dictGet c (f1, f2, _sig st1, _sig st2) = none) :
    cmp fs f1 f2 false c =
      .ok (_do_cmp st1.content st2.content,
        cacheUpdate c (f1, f2, _sig st1, _sig st2) (_do_cmp st1.content st2.content)) := by
  rw [cmp]
  rw [h1, h2]
  simp only [_sig] at hget ⊢
  rw [if_neg (by simp [hr1, hr2])]
  simp only [Bool.false_eq_true, if_neg (by decide : ¬ False)]
  rw [if_neg (by simpa using hsz)]
  rw [hget]

theorem cmp_shallow_div0 {fs : FS} {f1 f2 : String} {st1 st2 : File}
    {c : Cache} (h1 : fs f1 = some st1) (h2 : fs f2 = some st2)
    (hr1 : st1.ftype = FType.reg) (hr2 : st2.ftype = FType.reg)
    (hz : st2.size = 0) :
    cmp fs f1 f2 true c = .error .zeroDivision := by
  rw [cmp]
  rw [h1, h2]
  simp only [_sig]
  rw [if_neg (by simp [hr1, hr2])]
  rw [_is_similar, if_pos hz]
  simp

theorem cmp_shallow_similar {fs : FS} {f1 f2 : String} {st1 st2 : File}
    {c : Cache} (h1 : fs f1 = some st1) (h2 : fs f2 = some st2)
    (hr1 : st1.ftype = FType.reg) (hr2 : st2.ftype = FType.reg)
    (hz : st2.size ≠ 0)
    (hsim : (4 : ℚ) / 5 ≤ (st1.size : ℚ) / (st2.size : ℚ) ∧
      (st1.size : ℚ) / (st2.size : ℚ) ≤ (5 : ℚ) / 4) :
    cmp fs f1 f2 true c = .ok (true, c) := by
  rw [cmp]
  rw [h1, h2]
  simp only [_sig]
  rw [if_neg (by simp [hr1, hr2])]
  rw [_is_similar, if_neg hz]
  simp [hsim.1, hsim.2]

theorem cmp_shallow_not_similar {fs : FS} {f1 f2 : String} {st1 st2 : File}
    {c : Cache} (h1 : fs f1 = some st1) (h2 : fs f2 = some st2)
    (hr1 : st1.ftype = FType.reg) (hr2 : st2.ftype = FType.reg)
    (hz : st2.size ≠ 0)
    (hsim : ¬ ((4 : ℚ) / 5 ≤ (st1.size : ℚ) / (st2.size : ℚ) ∧
      (st1.size : ℚ) / (st2.size : ℚ) ≤ (5 : ℚ) / 4)) :
    cmp fs f1 f2 true c = .ok (false, c) := by
  have hne : st1.size ≠ st2.size := by
    intro he
    apply hsim
    rw [he, div_self (by exact_mod_cast hz)]
    norm_num
  rw [cmp]
  rw [h1, h2]
  simp only [_sig]
  rw [if_neg (by simp [hr1, hr2])]
  rw [_is_similar, if_neg hz]
  have hb : (decide ((4 : ℚ) / 5 ≤ (st1.size : ℚ) / (st2.size : ℚ)) &&
      decide ((st1.size : ℚ) / (st2.size : ℚ) ≤ (5 : ℚ) / 4)) = false := by
    by_cases hA : (4 : ℚ) / 5 ≤ (st1.size : ℚ) / (st2.size : ℚ)
    · have hB : ¬ ((st1.size : ℚ) / (st2.size : ℚ) ≤ (5 : ℚ) / 4) :=
        fun hB => hsim ⟨hA, hB⟩
      simp [hB]
    · simp [hA]
  rw [hb]
  simp only [if_pos hne]
  simp [hne]

/-- The size-similarity interval `[0.8, 1.25]` is closed under taking the
reciprocal of the ratio (for positive sizes). -/
theorem similar_symm {a b : Nat} (ha : a ≠ 0) (hb : b ≠ 0) :
    ((4 : ℚ) / 5 ≤ (a : ℚ) / (b : ℚ) ∧ (a : ℚ) / (b : ℚ) ≤ (5 : ℚ) / 4) ↔
    ((4 : ℚ) / 5 ≤ (b : ℚ) / (a : ℚ) ∧ (b : ℚ) / (a : ℚ) ≤ (5 : ℚ) / 4) := by
  have ha' : (0 : ℚ) < (a : ℚ) := by exact_mod_cast Nat.pos_of_ne_zero ha
  have hb' : (0 : ℚ) < (b : ℚ) := by exact_mod_cast Nat.pos_of_ne_zero hb
  rw [div_le_div_iff₀ (by norm_num) hb', div_le_div_iff₀ hb' (by norm_num),
    div_le_div_iff₀ (by norm_num) ha', div_le_div_iff₀ ha' (by norm_num)]
  constructor
  · rintro ⟨hx, hy⟩
    constructor <;> linarith
  · rintro ⟨hx, hy⟩
    constructor <;> linarith

/-- The empty cache (the state after `clear_cache()`) is consistent with
any filesystem. -/
theorem cacheOK_nil (fs : FS) : CacheOK fs [] := by
  intro p1 p2 s1 s2 v hmem
  simp at hmem

/-! ### Dictionary bookkeeping lemmas -/

def keys (c : Cache) : List Key := c.map Prod.fst

theorem dictGet_of_not_mem {c : Cache} {k : Key} (h : k ∉ keys c) :
    dictGet c k = none := by
  induction c with
  | nil => rfl
  | cons p rest ih =>
    obtain ⟨k', v'⟩ := p
    have hk : k' ≠ k := fun he => h (List.mem_cons.mpr (Or.inl he.symm))
    rw [dictGet, if_neg hk]
    exact ih fun hm => h (List.mem_cons_of_mem _ hm)

theorem dictSet_of_not_mem {c : Cache} {k : Key} {v : Bool} (h : k ∉ keys c) :
    dictSet c k v = c ++ [(k, v)] := by
  induction c with
  | nil => rfl
  | cons p rest ih =>
    obtain ⟨k', v'⟩ := p
    have hk : k' ≠ k := fun he => h (List.mem_cons.mpr (Or.inl he.symm))
    rw [dictSet, if_neg hk]
    rw [ih fun hm => h (List.mem_cons_of_mem _ hm)]
    rfl

theorem dictSet_length_le (c : Cache) (k : Key) (v : Bool) :
    (dictSet c k v).length ≤ c.length + 1 := by
  induction c with
  | nil => simp [dictSet]
  | cons p rest ih =>
    obtain ⟨k', v'⟩ := p
    rw [dictSet]
    by_cases hk : k' = k
    · rw [if_pos hk]
      simp
    · rw [if_neg hk]
      simpa using Nat.succ_le_succ ih

/-! ### Partition lemmas for the directory phases -/

theorem fin3_cases : ∀ i : Fin 3, i = 0 ∨ i = 1 ∨ i = 2 := by decide

theorem phase2_eq_filters (fs : FS) (left right : String) (common : List String) :
    phase2 fs left right common =
      (common.filter (fun x => classOf fs left right x == 0),
       common.filter (fun x => classOf fs left right x == 1),
       common.filter (fun x => classOf fs left right x == 2)) := by
  induction common with
  | nil => rfl
  | cons x rest ih =>
    rw [phase2, ih]
    rcases hL : fs (join left x) with _ | sa <;>
      rcases hR : fs (join right x) with _ | sb <;>
      simp only [classOf, hL, hR, List.filter_cons]
    · simp
    · simp
    · simp
    · by_cases h1 : sa.ftype = sb.ftype
      · by_cases h2 : sa.ftype = FType.dir
        · have h2' : sb.ftype = FType.dir := h1 ▸ h2
          simp [h1, h2, h2']
        · have h2' : ¬ sb.ftype = FType.dir := fun hh => h2 (h1.trans hh)
          by_cases h3 : sa.ftype = FType.reg
          · have h3' : sb.ftype = FType.reg := h1 ▸ h3
            simp [h1, h2, h2', h3, h3']
          · have h3' : ¬ sb.ftype = FType.reg := fun hh => h3 (h1.trans hh)
            simp [h1, h2, h2', h3, h3']
      · simp [h1]

theorem phase2_partition (fs : FS) (left right : String) (common : List String) :
    (∀ n, (n ∈ (phase2 fs left right common).1 ∨
        n ∈ (phase2 fs left right common).2.1 ∨
        n ∈ (phase2 fs left right common).2.2) ↔ n ∈ common) ∧
    (∀ n, ¬ (n ∈ (phase2 fs left right common).1 ∧
        n ∈ (phase2 fs left right common).2.1) ∧
      ¬ (n ∈ (phase2 fs left right common).1 ∧
        n ∈ (phase2 fs left right common).2.2) ∧
      ¬ (n ∈ (phase2 fs left right common).2.1 ∧
        n ∈ (phase2 fs left right common).2.2)) := by
  rw [phase2_eq_filters]
  constructor
  · intro n
    simp only [List.mem_filter, beq_iff_eq]
    constructor
    · rintro (⟨hn, _⟩ | ⟨hn, _⟩ | ⟨hn, _⟩) <;> exact hn
    · intro hn
      rcases fin3_cases (classOf fs left right n) with h | h | h
      · exact Or.inl ⟨hn, h⟩
      · exact Or.inr (Or.inl ⟨hn, h⟩)
      · exact Or.inr (Or.inr ⟨hn, h⟩)
  · intro n
    simp only [List.mem_filter, beq_iff_eq]
    refine ⟨?_, ?_, ?_⟩ <;> rintro ⟨⟨_, h1⟩, ⟨_, h2⟩⟩ <;> rw [h1] at h2 <;> cases h2

theorem cmpfiles_partition (fs : FS) (a b : String) :
    ∀ (l : List String) (sh : Bool) (c : Cache) (s d f : List String) (c' : Cache),
      cmpfiles fs a b l sh c = .ok ((s, d, f), c') →
      (∀ n, (n ∈ s ∨ n ∈ d ∨ n ∈ f) ↔ n ∈ l) ∧
      (l.Nodup →
        ∀ n, ¬ (n ∈ s ∧ n ∈ d) ∧ ¬ (n ∈ s ∧ n ∈ f) ∧ ¬ (n ∈ d ∧ n ∈ f)) := by
  intro l
  induction l with
  | nil =>
    intro sh c s d f c' h
    rw [cmpfiles] at h
    cases h
    simp
  | cons x rest ih =>
    intro sh c s d f c' h
    rw [cmpfiles] at h
    cases hx : _cmp fs (join a x) (join b x) sh c with
    | error e =>
      rw [hx] at h
      cases (show (Except.error e :
          Except Err ((List String × List String × List String) × Cache)) =
          Except.ok ((s, d, f), c') from h)
    | ok p =>
      obtain ⟨i, c1⟩ := p
      rw [hx] at h
      replace h : (match cmpfiles fs a b rest sh c1 with
          | Except.error e => Except.error e
          | Except.ok ((s2, d2, f2), c2) =>
            if i = 0 then Except.ok ((x :: s2, d2, f2), c2)
            else if i = 1 then Except.ok ((s2, x :: d2, f2), c2)
            else Except.ok ((s2, d2, x :: f2), c2)) =
          Except.ok ((s, d, f), c') := h
      cases hrest : cmpfiles fs a b rest sh c1 with
      | error e =>
        rw [hrest] at h
        cases (show (Except.error e :
            Except Err ((List String × List String × List String) × Cache)) =
            Except.ok ((s, d, f), c') from h)
      | ok q =>
        obtain ⟨⟨s', d', f'⟩, c2⟩ := q
        rw [hrest] at h
        replace h : (if i = 0 then Except.ok ((x :: s', d', f'), c2)
            else if i = 1 then Except.ok ((s', x :: d', f'), c2)
            else Except.ok ((s', d', x :: f'), c2)) =
            Except.ok ((s, d, f), c') := h
        obtain ⟨hu, hdisj⟩ := ih sh c1 s' d' f' c2 hrest
        have hs' : ∀ n, n ∈ s' → n ∈ rest := fun n hn => (hu n).mp (Or.inl hn)
        have hd' : ∀ n, n ∈ d' → n ∈ rest := fun n hn => (hu n).mp (Or.inr (Or.inl hn))
        have hf' : ∀ n, n ∈ f' → n ∈ rest := fun n hn => (hu n).mp (Or.inr (Or.inr hn))
        rcases fin3_cases i with hi | hi | hi <;> subst hi
        · rw [if_pos rfl] at h
          cases h
          refine ⟨?_, ?_⟩
          · intro n
            have h0 := hu n
            constructor
            · rintro (hA | hA | hA)
              · rcases List.mem_cons.mp hA with rfl | hA2
                · exact List.mem_cons_self _ _
                · exact List.mem_cons_of_mem _ (h0.mp (Or.inl hA2))
              · exact List.mem_cons_of_mem _ (h0.mp (Or.inr (Or.inl hA)))
              · exact List.mem_cons_of_mem _ (h0.mp (Or.inr (Or.inr hA)))
            · intro hmem
              rcases List.mem_cons.mp hmem with rfl | hA
              · exact Or.inl (List.mem_cons_self _ _)
              · rcases h0.mpr hA with hB | hB | hB
                · exact Or.inl (List.mem_cons_of_mem _ hB)
                · exact Or.inr (Or.inl hB)
                · exact Or.inr (Or.inr hB)
          · intro hnd n
            obtain ⟨hxr, hndr⟩ := List.nodup_cons.mp hnd
            have hdn := hdisj hndr n
            refine ⟨?_, ?_, hdn.2.2⟩
            · rintro ⟨hA, hB⟩
              rcases List.mem_cons.mp hA with rfl | hA2
              · exact hxr (hd' _ hB)
              · exact hdn.1 ⟨hA2, hB⟩
            · rintro ⟨hA, hB⟩
              rcases List.mem_cons.mp hA with rfl | hA2
              · exact hxr (hf' _ hB)
              · exact hdn.2.1 ⟨hA2, hB⟩
        · rw [if_neg (by decide), if_pos rfl] at h
          cases h
          refine ⟨?_, ?_⟩
          · intro n
            have h0 := hu n
            constructor
            · rintro (hA | hA | hA)
              · exact List.mem_cons_of_mem _ (h0.mp (Or.inl hA))
              · rcases List.mem_cons.mp hA with rfl | hA2
                · exact List.mem_cons_self _ _
                · exact List.mem_cons_of_mem _ (h0.mp (Or.inr (Or.inl hA2)))
              · exact List.mem_cons_of_mem _ (h0.mp (Or.inr (Or.inr hA)))
            · intro hmem
              rcases List.mem_cons.mp hmem with rfl | hA
              · exact Or.inr (Or.inl (List.mem_cons_self _ _))
              · rcases h0.mpr hA with hB | hB | hB
                · exact Or.inl hB
                · exact Or.inr (Or.inl (List.mem_cons_of_mem _ hB))
                · exact Or.inr (Or.inr hB)
          · intro hnd n
            obtain ⟨hxr, hndr⟩ := List.nodup_cons.mp hnd
            have hdn := hdisj hndr n
            refine ⟨?_, ?_, ?_⟩
            · rintro ⟨hA, hB⟩
              rcases List.mem_cons.mp hB with rfl | hB2
              · exact hxr (hs' _ hA)
              · exact hdn.1 ⟨hA, hB2⟩
            · exact hdn.2.1
            · rintro ⟨hA, hB⟩
              rcases List.mem_cons.mp hA with rfl | hA2
              · exact hxr (hf' _ hB)
              · exact hdn.2.2 ⟨hA2, hB⟩
        · rw [if_neg (by decide), if_neg (by decide)] at h
          cases h
          refine ⟨?_, ?_⟩
          · intro n
            have h0 := hu n
            constructor
            · rintro (hA | hA | hA)
              · exact List.mem_cons_of_mem _ (h0.mp (Or.inl hA))
              · exact List.mem_cons_of_mem _ (h0.mp (Or.inr (Or.inl hA)))
              · rcases List.mem_cons.mp hA with rfl | hA2
                · exact List.mem_cons_self _ _
                · exact List.mem_cons_of_mem _ (h0.mp (Or.inr (Or.inr hA2)))
            · intro hmem
              rcases List.mem_cons.mp hmem with rfl | hA
              · exact Or.inr (Or.inr (List.mem_cons_self _ _))
              · rcases h0.mpr hA with hB | hB | hB
                · exact Or.inl hB
                · exact Or.inr (Or.inl hB)
                · exact Or.inr (Or.inr (List.mem_cons_of_mem _ hB))
          · intro hnd n
            obtain ⟨hxr, hndr⟩ := List.nodup_cons.mp hnd
            have hdn := hdisj hndr n
            refine ⟨hdn.1, ?_, ?_⟩
            · rintro ⟨hA, hB⟩
              rcases List.mem_cons.mp hB with rfl | hB2
              · exact hxr (hs' _ hA)
              · exact hdn.2.1 ⟨hA, hB2⟩
            · rintro ⟨hA, hB⟩
              rcases List.mem_cons.mp hB with rfl | hB2
              · exact hxr (hd' _ hA)
              · exact hdn.2.2 ⟨hA, hB2⟩

theorem dinsert_of_not_mem {d : List (String × String)} {k v : String}
    (h : k ∉ d.map Prod.fst) : dinsert d k v = d ++ [(k, v)] := by
  induction d with
  | nil => rfl
  | cons p rest ih =>
    obtain ⟨k', v'⟩ := p
    have hk : k' ≠ k := fun he => h (List.mem_cons.mpr (Or.inl he.symm))
    rw [dinsert, if_neg hk, ih fun hm => h (List.mem_cons_of_mem _ hm)]
    rfl

theorem dictOfZip_aux (l : List (String × String)) :
    ∀ acc : List (String × String), ((acc ++ l).map Prod.fst).Nodup →
      l.foldl (fun d p => dinsert d p.1 p.2) acc = acc ++ l := by
  induction l with
  | nil =>
    intro acc _
    simp
  | cons p l ih =>
    intro acc hnd
    obtain ⟨k, v⟩ := p
    rw [List.append_cons] at hnd ⊢
    rw [List.foldl_cons]
    have hprefix : ((acc ++ [(k, v)]).map Prod.fst).Nodup := by
      rw [List.map_append] at hnd
      exact hnd.of_append_left
    have hknotin : k ∉ acc.map Prod.fst := by
      rw [List.map_append, List.nodup_append] at hprefix
      intro hm
      exact hprefix.2.2 hm (by simp)
    rw [show dinsert acc k v = acc ++ [(k, v)] from dinsert_of_not_mem hknotin]
    exact ih _ hnd

theorem dictOfZip_of_nodup {l : List (String × String)}
    (h : (l.map Prod.fst).Nodup) : dictOfZip l = l := by
  have haux := dictOfZip_aux l [] (by simpa using h)
  simpa [dictOfZip] using haux

theorem pairs_filter_map (nc : String → String) (l : List String)
    (P : String → Bool) :
    ((l.map (fun x => (nc x, x))).filter (fun p => P p.1)).map Prod.snd =
      l.filter (fun x => P (nc x)) := by
  induction l with
  | nil => rfl
  | cons x xs ih =>
    simp only [List.map_cons, List.filter_cons]
    by_cases h : P (nc x)
    · simp [h, ih]
    · simp [h, ih]

theorem hasKey_pairs (nc : String → String) (rl : List String) (k : String) :
    hasKey (rl.map (fun y => (nc y, y))) k = rl.any (fun y => nc y == k) := by
  induction rl with
  | nil => rfl
  | cons y ys ih =>
    simp only [hasKey, List.map_cons, List.any_cons] at ih ⊢
    rw [ih]

theorem phase1_eq_filters (nc : String → String) (ll rl : List String)
    (hA : ((ll.map (fun x => (nc x, x))).map Prod.fst).Nodup)
    (hB : ((rl.map (fun x => (nc x, x))).map Prod.fst).Nodup) :
    phase1 nc ll rl =
      (ll.filter (fun x => rl.any (fun y => nc y == nc x)),
       ll.filter (fun x => ! rl.any (fun y => nc y == nc x)),
       rl.filter (fun y => ! ll.any (fun x => nc x == nc y))) := by
  rw [phase1]
  rw [dictOfZip_of_nodup hA, dictOfZip_of_nodup hB]
  refine congrArg₂ Prod.mk ?_ (congrArg₂ Prod.mk ?_ ?_)
  · rw [show (fun p : String × String => hasKey (rl.map (fun y => (nc y, y))) p.1) =
      (fun p : String × String => rl.any (fun y => nc y == p.1)) from
        funext fun p => hasKey_pairs nc rl p.1]
    exact pairs_filter_map nc ll (fun k => rl.any (fun y => nc y == k))
  · rw [show (fun p : String × String => ! hasKey (rl.map (fun y => (nc y, y))) p.1) =
      (fun p : String × String => ! rl.any (fun y => nc y == p.1)) from
        funext fun p => by rw [hasKey_pairs]]
    exact pairs_filter_map nc ll (fun k => ! rl.any (fun y => nc y == k))
  · rw [show (fun p : String × String => ! hasKey (ll.map (fun y => (nc y, y))) p.1) =
      (fun p : String × String => ! ll.any (fun y => nc y == p.1)) from
        funext fun p => by rw [hasKey_pairs]]
    exact pairs_filter_map nc rl (fun k => ! ll.any (fun y => nc y == k))

/-! ### A run of distinct deep comparisons against the cache bound -/

/-- Pairwise distinct path names: `i` copies of the letter `a`. -/
def demoPath (i : Nat) : String := ⟨List.replicate i 'a'⟩

/-- A filesystem on which every path stats to the same empty regular file. -/
def demoFS : FS := fun _ => some ⟨FType.reg, 0, 0, []⟩

/-- The cache key produced by the `i`-th comparison of the run. -/
def runKey (i : Nat) : Key :=
  (demoPath i, "R", (FType.reg, 0, 0), (FType.reg, 0, 0))

/-- Run `n` deep `cmp` calls on pairwise distinct path pairs, threading the
module cache starting from empty (`clear_cache()`), and return the final
cache.  Each call is a miss that stores one new entry. -/
def insertRun (n : Nat) : Cache :=
  (List.range n).foldl (fun c i => cmpCache demoFS (demoPath i) "R" false c) []

theorem demoPath_inj {i j : Nat} (h : demoPath i = demoPath j) : i = j := by
  have hl := congrArg (fun s => s.data.length) h
  simpa [demoPath] using hl

theorem insertRun_succ (n : Nat) :
    insertRun (n + 1) = cmpCache demoFS (demoPath n) "R" false (insertRun n) := by
  unfold insertRun
  rw [List.range_succ, List.foldl_append]
  rfl

theorem runKey_fresh {m : Nat}
    (hkeys : keys (insertRun m) = (List.range m).map runKey) :
    runKey m ∉ keys (insertRun m) := by
  rw [hkeys]
  intro hmem
  obtain ⟨i, hi, hk⟩ := List.mem_map.mp hmem
  have hip : demoPath i = demoPath m := congrArg Prod.fst hk
  have := demoPath_inj hip
  rw [List.mem_range] at hi
  omega

theorem insertRun_spec : ∀ n, n ≤ 101 →
    (insertRun n).length = n ∧ keys (insertRun n) = (List.range n).map runKey := by
  intro n
  induction n with
  | zero => exact fun _ => ⟨rfl, rfl⟩
  | succ m ih =>
    intro hle
    obtain ⟨hlen, hkeys⟩ := ih (by omega)
    have hfresh := runKey_fresh hkeys
    have hget : dictGet (insertRun m) (runKey m) = none := dictGet_of_not_mem hfresh
    have hcmp := @cmp_deep_miss demoFS (demoPath m) "R" ⟨FType.reg, 0, 0, []⟩
      ⟨FType.reg, 0, 0, []⟩ (insertRun m) rfl rfl rfl rfl rfl hget
    have hcu : cacheUpdate (insertRun m) (runKey m) (_do_cmp ([] : List Nat) []) =
        insertRun m ++ [(runKey m, _do_cmp ([] : List Nat) [])] := by
      rw [cacheUpdate, if_neg (by omega)]
      exact dictSet_of_not_mem hfresh
    rw [insertRun_succ, cmpCache, hcmp]
    refine ⟨?_, ?_⟩
    · show (cacheUpdate (insertRun m) (runKey m) (_do_cmp ([] : List Nat) [])).length = m + 1
      rw [hcu]
      simp [hlen]
    · show keys (cacheUpdate (insertRun m) (runKey m) (_do_cmp ([] : List Nat) [])) =
        (List.range (m + 1)).map runKey
      rw [hcu, keys, List.map_append, ← keys, hkeys, List.range_succ, List.map_append]
      rfl

theorem insertRun_102 : (insertRun 102).length = 1 := by
  obtain ⟨hlen, hkeys⟩ := insertRun_spec 101 (by omega)
  have hfresh := runKey_fresh hkeys
  have hget : dictGet (insertRun 101) (runKey 101) = none := dictGet_of_not_mem hfresh
  have hcmp := @cmp_deep_miss demoFS (demoPath 101) "R" ⟨FType.reg, 0, 0, []⟩
    ⟨FType.reg, 0, 0, []⟩ (insertRun 101) rfl rfl rfl rfl rfl hget
  rw [show (102 : Nat) = 101 + 1 from rfl, insertRun_succ, cmpCache, hcmp]
  show (cacheUpdate (insertRun 101) (runKey 101) (_do_cmp ([] : List Nat) [])).length = 1
  rw [cacheUpdate, if_pos (by omega)]
  rfl

/-! ### Claim theorems -/

/-- C1, counterexample: starting from an empty cache, 101 `cmp` calls with
pairwise distinct keys leave the cache with 101 entries — more, not fewer,
than the 100 it held before the 101st insert, so the cache is not bounded
by 100 entries and the 101st insert does not flush it. -/
theorem cache_bound_counterexample :
    (insertRun 100).length = 100 ∧ (insertRun 101).length = 101 ∧
    ¬ ((insertRun 101).length < (insertRun 100).length) := by
  obtain ⟨h100, _⟩ := insertRun_spec 100 (by omega)
  obtain ⟨h101, _⟩ := insertRun_spec 101 (by omega)
  exact ⟨h100, h101, by omega⟩

/-- C1, amended: the cache is bounded by 101 entries; an insert first
flushes the whole cache (no per-entry eviction) exactly when it already
holds more than 100 entries, so the 101st distinct insert grows the cache
to 101 entries and the 102nd leaves exactly one. -/
theorem cache_full_flush_amended :
    (∀ (c : Cache) (k : Key) (v : Bool), (cacheUpdate c k v).length ≤ 101) ∧
    (insertRun 101).length = 101 ∧ (insertRun 102).length = 1 := by
  refine ⟨?_, (insertRun_spec 101 (by omega)).1, insertRun_102⟩
  intro c k v
  rw [cacheUpdate]
  by_cases h : 100 < c.length
  · rw [if_pos h]
    have h2 := dictSet_length_le [] k v
    simp at h2
    omega
  · rw [if_neg h]
    have := dictSet_length_le c k v
    omega

theorem cache_full_flush_amended_witness :
    (cacheUpdate [] (runKey 0) true).length ≤ 101 :=
  cache_full_flush_amended.1 [] (runKey 0) true

/-- Filesystem for the C2 counterexample: two regular files of equal size
with different modification times and identical contents. -/
def mtimeFS : FS := fun p =>
  if p = "a" then some ⟨FType.reg, 1, 0, [7]⟩
  else if p = "b" then some ⟨FType.reg, 1, 5, [7]⟩
  else none

/-- C2, counterexample: the two files' signatures differ (same size,
different mtime), yet deep `cmp` reads the contents and returns equal,
instead of the claimed not-equal-without-content-read. -/
theorem deep_mtime_counterexample :
    _sig (File.mk FType.reg 1 0 [7]) ≠ _sig (File.mk FType.reg 1 5 [7]) ∧
    resultBool (cmp mtimeFS "a" "b" false []) = .ok true := by
  refine ⟨by decide, ?_⟩
  have h := @cmp_deep_eval mtimeFS "a" "b" ⟨FType.reg, 1, 0, [7]⟩
    ⟨FType.reg, 1, 5, [7]⟩ [] rfl rfl rfl rfl rfl (cacheOK_nil _)
  rw [h, _do_cmp_eq_decide]
  simp

/-- C2, amended: in deep mode the fast-path negative compares only the
sizes (`s1[1] != s2[1]`), not the full signatures: differing sizes give
not-equal with no content read and no cache change, while equal-size files
are content-compared regardless of their modification times. -/
theorem deep_fastpath_size_only {fs : FS} {f1 f2 : String} {st1 st2 : File}
    {c : Cache} (h1 : fs f1 = some st1) (h2 : fs f2 = some st2)
    (hr1 : st1.ftype = FType.reg) (hr2 : st2.ftype = FType.reg) :
    (st1.size ≠ st2.size → cmp fs f1 f2 false c = .ok (false, c)) ∧
    (st1.size = st2.size → CacheOK fs c →
      resultBool (cmp fs f1 f2 false c) = .ok (_do_cmp st1.content st2.content)) :=
  ⟨fun hsz => cmp_deep_size_ne h1 h2 hr1 hr2 hsz,
   fun hsz hc => cmp_deep_eval h1 h2 hr1 hr2 hsz hc⟩

/-- Filesystem with two regular files of different sizes. -/
def sizeFS : FS := fun p =>
  if p = "a" then some ⟨FType.reg, 1, 0, [7]⟩
  else if p = "c" then some ⟨FType.reg, 2, 0, [7, 8]⟩
  else none

theorem deep_fastpath_size_only_witness :
    cmp sizeFS "a" "c" false [] = .ok (false, []) :=
  (deep_fastpath_size_only rfl rfl rfl rfl).1 (by decide)

/-- C4: in shallow mode, two regular files whose size ratio lies in the
closed interval `[4/5, 5/4]` compare equal with no content read and no
cache change, whatever their contents; a ratio outside the interval gives
not-equal, likewise without content read (the divisor size must be nonzero,
see C9). -/
theorem shallow_size_ratio {fs : FS} {f1 f2 : String} {st1 st2 : File}
    {c : Cache} (h1 : fs f1 = some st1) (h2 : fs f2 = some st2)
    (hr1 : st1.ftype = FType.reg) (hr2 : st2.ftype = FType.reg)
    (hz : st2.size ≠ 0) :
    ((4 : ℚ) / 5 ≤ (st1.size : ℚ) / (st2.size : ℚ) ∧
        (st1.size : ℚ) / (st2.size : ℚ) ≤ (5 : ℚ) / 4 →
      cmp fs f1 f2 true c = .ok (true, c)) ∧
    (¬ ((4 : ℚ) / 5 ≤ (st1.size : ℚ) / (st2.size : ℚ) ∧
        (st1.size : ℚ) / (st2.size : ℚ) ≤ (5 : ℚ) / 4) →
      cmp fs f1 f2 true c = .ok (false, c)) :=
  ⟨fun hsim => cmp_shallow_similar h1 h2 hr1 hr2 hz hsim,
   fun hsim => cmp_shallow_not_similar h1 h2 hr1 hr2 hz hsim⟩

/-- Files of sizes 100, 110 and 200 with unrelated contents. -/
def ratioFS : FS := fun p =>
  if p = "a" then some ⟨FType.reg, 100, 0, [1]⟩
  else if p = "b" then some ⟨FType.reg, 110, 0, [2]⟩
  else if p = "c" then some ⟨FType.reg, 200, 0, [3]⟩
  else none

theorem shallow_size_ratio_witness :
    cmp ratioFS "a" "b" true [] = .ok (true, []) ∧
    cmp ratioFS "a" "c" true [] = .ok (false, []) :=
  ⟨(shallow_size_ratio rfl rfl rfl rfl (by norm_num)).1 (by norm_num),
   (shallow_size_ratio rfl rfl rfl rfl (by norm_num)).2 (by norm_num)⟩

/-- C5: in deep mode (with a consistent cache and stat sizes matching the
content lengths, as on a real filesystem) `cmp` returns equal exactly when
the two byte streams are identical; in particular empty files compare
equal and a single differing byte makes the result not-equal. -/
theorem deep_content_iff {fs : FS} {f1 f2 : String} {st1 st2 : File}
    {c : Cache} (h1 : fs f1 = some st1) (h2 : fs f2 = some st2)
    (hr1 : st1.ftype = FType.reg) (hr2 : st2.ftype = FType.reg)
    (hl1 : st1.size = st1.content.length) (hl2 : st2.size = st2.content.length)
    (hcache : CacheOK fs c) :
    resultBool (cmp fs f1 f2 false c) = .ok (decide (st1.content = st2.content)) := by
  by_cases hsz : st1.size = st2.size
  · rw [cmp_deep_eval h1 h2 hr1 hr2 hsz hcache, _do_cmp_eq_decide]
  · have hcon : st1.content ≠ st2.content := by
      intro he
      exact hsz (by rw [hl1, hl2, he])
    rw [cmp_deep_size_ne h1 h2 hr1 hr2 hsz]
    simp [resultBool, hcon]

/-- Two empty files and two one-byte files differing in their only byte. -/
def contentFS : FS := fun p =>
  if p = "e1" then some ⟨FType.reg, 0, 0, []⟩
  else if p = "e2" then some ⟨FType.reg, 0, 0, []⟩
  else if p = "x" then some ⟨FType.reg, 1, 3, [5]⟩
  else if p = "y" then some ⟨FType.reg, 1, 9, [6]⟩
  else none

theorem deep_content_iff_witness :
    resultBool (cmp contentFS "e1" "e2" false []) = .ok true ∧
    resultBool (cmp contentFS "x" "y" false []) = .ok false := by
  constructor
  · have h := @deep_content_iff contentFS "e1" "e2" ⟨FType.reg, 0, 0, []⟩
      ⟨FType.reg, 0, 0, []⟩ [] rfl rfl rfl rfl rfl rfl (cacheOK_nil _)
    simpa using h
  · have h := @deep_content_iff contentFS "x" "y" ⟨FType.reg, 1, 3, [5]⟩
      ⟨FType.reg, 1, 9, [6]⟩ [] rfl rfl rfl rfl rfl rfl (cacheOK_nil _)
    simpa using h

/-- C7: deep-mode equality is symmetric for existing regular files, for any
cache consistent with the filesystem (in particular the empty cache). -/
theorem deep_symmetric {fs : FS} {f1 f2 : String} {st1 st2 : File}
    {c : Cache} (h1 : fs f1 = some st1) (h2 : fs f2 = some st2)
    (hr1 : st1.ftype = FType.reg) (hr2 : st2.ftype = FType.reg)
    (hcache : CacheOK fs c) :
    resultBool (cmp fs f1 f2 false c) = resultBool (cmp fs f2 f1 false c) := by
  by_cases hsz : st1.size = st2.size
  · rw [cmp_deep_eval h1 h2 hr1 hr2 hsz hcache,
      cmp_deep_eval h2 h1 hr2 hr1 hsz.symm hcache, _do_cmp_comm]
  · rw [cmp_deep_size_ne h1 h2 hr1 hr2 hsz,
      cmp_deep_size_ne h2 h1 hr2 hr1 (Ne.symm hsz)]

theorem deep_symmetric_witness :
    resultBool (cmp contentFS "x" "y" false []) =
    resultBool (cmp contentFS "y" "x" false []) :=
  deep_symmetric rfl rfl rfl rfl (cacheOK_nil _)

/-- C8: whenever either stat-able path is not a regular file, `cmp` returns
not-equal, in shallow and in deep mode alike, with the cache unchanged. -/
theorem non_regular_false {fs : FS} {f1 f2 : String} {st1 st2 : File}
    {sh : Bool} {c : Cache} (h1 : fs f1 = some st1) (h2 : fs f2 = some st2)
    (hnr : st1.ftype ≠ FType.reg ∨ st2.ftype ≠ FType.reg) :
    cmp fs f1 f2 sh c = .ok (false, c) :=
  cmp_not_reg h1 h2 hnr

/-- A directory next to a regular file. -/
def dirFS : FS := fun p =>
  if p = "d" then some ⟨FType.dir, 4096, 0, []⟩
  else if p = "a" then some ⟨FType.reg, 1, 0, [7]⟩
  else none

theorem non_regular_false_witness :
    cmp dirFS "d" "a" true [] = .ok (false, []) ∧
    cmp dirFS "d" "a" false [] = .ok (false, []) :=
  ⟨non_regular_false rfl rfl (Or.inl (by decide)),
   non_regular_false rfl rfl (Or.inl (by decide))⟩

/-- C9: in shallow mode, when the second regular file has size zero the
similarity test divides by zero; the resulting `ZeroDivisionError` is not
an `OSError`, so `cmpfiles` propagates it instead of classifying the file
as funny, aborting the whole directory comparison. -/
theorem zero_size_division_error {fs : FS} {a b x : String} {st1 st2 : File}
    {c : Cache} (h1 : fs (join a x) = some st1) (h2 : fs (join b x) = some st2)
    (hr1 : st1.ftype = FType.reg) (hr2 : st2.ftype = FType.reg)
    (hz : st2.size = 0) :
    cmp fs (join a x) (join b x) true c = .error .zeroDivision ∧
    ∀ rest : List String, cmpfiles fs a b (x :: rest) true c = .error .zeroDivision := by
  have hcmp := @cmp_shallow_div0 fs (join a x) (join b x) st1 st2 c h1 h2 hr1 hr2 hz
  refine ⟨hcmp, fun rest => ?_⟩
  rw [cmpfiles, _cmp, hcmp]

/-- Left file `L/f` of size 5, right file `R/f` of size 0. -/
def zeroFS : FS := fun p =>
  if p = "L/f" then some ⟨FType.reg, 5, 0, [1, 2, 3, 4, 5]⟩
  else if p = "R/f" then some ⟨FType.reg, 0, 0, []⟩
  else none

theorem zero_size_division_error_witness :
    cmp zeroFS (join "L" "f") (join "R" "f") true [] = .error .zeroDivision ∧
    cmpfiles zeroFS "L" "R" ["f"] true [] = .error .zeroDivision := by
  have h := @zero_size_division_error zeroFS "L" "R" "f"
    ⟨FType.reg, 5, 0, [1, 2, 3, 4, 5]⟩ ⟨FType.reg, 0, 0, []⟩ [] rfl rfl rfl rfl rfl
  exact ⟨h.1, h.2 []⟩

/-- C10: shallow-mode equality is symmetric for existing regular files of
positive sizes, because the similarity interval is closed under taking
reciprocals and the fallback size-inequality test is symmetric. -/
theorem shallow_symmetric {fs : FS} {f1 f2 : String} {st1 st2 : File}
    {c : Cache} (h1 : fs f1 = some st1) (h2 : fs f2 = some st2)
    (hr1 : st1.ftype = FType.reg) (hr2 : st2.ftype = FType.reg)
    (hp1 : st1.size ≠ 0) (hp2 : st2.size ≠ 0) :
    cmp fs f1 f2 true c = cmp fs f2 f1 true c := by
  by_cases hsim : (4 : ℚ) / 5 ≤ (st1.size : ℚ) / (st2.size : ℚ) ∧
      (st1.size : ℚ) / (st2.size : ℚ) ≤ (5 : ℚ) / 4
  · rw [cmp_shallow_similar h1 h2 hr1 hr2 hp2 hsim,
      cmp_shallow_similar h2 h1 hr2 hr1 hp1 ((similar_symm hp1 hp2).mp hsim)]
  · rw [cmp_shallow_not_similar h1 h2 hr1 hr2 hp2 hsim,
      cmp_shallow_not_similar h2 h1 hr2 hr1 hp1
        (fun hs => hsim ((similar_symm hp2 hp1).mp hs))]

theorem shallow_symmetric_witness :
    cmp ratioFS "a" "b" true [] = cmp ratioFS "b" "a" true [] :=
  shallow_symmetric rfl rfl rfl rfl (by decide) (by decide)

/-- C3: for every directory pair, `left_only`, `right_only` and `common`
partition the union of the two filtered directory listings exactly (no name
in more than one); `common_dirs`, `common_files` and `common_funny`
partition `common` exactly; and `same_files`, `diff_files` and
`funny_files` partition `common_files` exactly.  Hypotheses: the two
listings are duplicate-free (as `os.listdir` guarantees) and `normcase` is
injective on them (as on POSIX, where `normcase` is the identity; the
spec's stated assumption of no duplicate case-folded names). -/
theorem partitions_exact (nc : String → String) (fs : FS) (left right : String)
    (sh : Bool) (c : Cache) (ll rl : List String)
    (hnl : ll.Nodup) (hnr : rl.Nodup)
    (hinj : ∀ x ∈ ll ++ rl, ∀ y ∈ ll ++ rl, nc x = nc y → x = y) :
    (∀ n, (n ∈ (phase1 nc ll rl).1 ∨ n ∈ (phase1 nc ll rl).2.1 ∨
        n ∈ (phase1 nc ll rl).2.2) ↔ (n ∈ ll ∨ n ∈ rl)) ∧
    (∀ n, ¬ (n ∈ (phase1 nc ll rl).1 ∧ n ∈ (phase1 nc ll rl).2.1) ∧
      ¬ (n ∈ (phase1 nc ll rl).1 ∧ n ∈ (phase1 nc ll rl).2.2) ∧
      ¬ (n ∈ (phase1 nc ll rl).2.1 ∧ n ∈ (phase1 nc ll rl).2.2)) ∧
    (∀ n, (n ∈ (phase2 fs left right (phase1 nc ll rl).1).1 ∨
        n ∈ (phase2 fs left right (phase1 nc ll rl).1).2.1 ∨
        n ∈ (phase2 fs left right (phase1 nc ll rl).1).2.2) ↔
      n ∈ (phase1 nc ll rl).1) ∧
    (∀ n, ¬ (n ∈ (phase2 fs left right (phase1 nc ll rl).1).1 ∧
        n ∈ (phase2 fs left right (phase1 nc ll rl).1).2.1) ∧
      ¬ (n ∈ (phase2 fs left right (phase1 nc ll rl).1).1 ∧
        n ∈ (phase2 fs left right (phase1 nc ll rl).1).2.2) ∧
      ¬ (n ∈ (phase2 fs left right (phase1 nc ll rl).1).2.1 ∧
        n ∈ (phase2 fs left right (phase1 nc ll rl).1).2.2)) ∧
    (∀ s d f c', cmpfiles fs left right
        (phase2 fs left right (phase1 nc ll rl).1).2.1 sh c = .ok ((s, d, f), c') →
      (∀ n, (n ∈ s ∨ n ∈ d ∨ n ∈ f) ↔
        n ∈ (phase2 fs left right (phase1 nc ll rl).1).2.1) ∧
      (∀ n, ¬ (n ∈ s ∧ n ∈ d) ∧ ¬ (n ∈ s ∧ n ∈ f) ∧ ¬ (n ∈ d ∧ n ∈ f))) := by
  have hinjL : ∀ x ∈ ll, ∀ y ∈ ll, nc x = nc y → x = y := fun x hx y hy =>
    hinj x (List.mem_append_left _ hx) y (List.mem_append_left _ hy)
  have hinjR : ∀ x ∈ rl, ∀ y ∈ rl, nc x = nc y → x = y := fun x hx y hy =>
    hinj x (List.mem_append_right _ hx) y (List.mem_append_right _ hy)
  have hAnd : ((ll.map fun x => (nc x, x)).map Prod.fst).Nodup := by
    rw [List.map_map]
    exact List.Nodup.map_on hinjL hnl
  have hBnd : ((rl.map fun x => (nc x, x)).map Prod.fst).Nodup := by
    rw [List.map_map]
    exact List.Nodup.map_on hinjR hnr
  have heq := phase1_eq_filters nc ll rl hAnd hBnd
  have h1 : (phase1 nc ll rl).1 =
      ll.filter (fun x => rl.any (fun y => nc y == nc x)) := by rw [heq]
  have h2 : (phase1 nc ll rl).2.1 =
      ll.filter (fun x => ! rl.any (fun y => nc y == nc x)) := by rw [heq]
  have h3 : (phase1 nc ll rl).2.2 =
      rl.filter (fun y => ! ll.any (fun x => nc x == nc y)) := by rw [heq]
  have hc : ∀ n, n ∈ ll.filter (fun x => rl.any (fun y => nc y == nc x)) ↔
      (n ∈ ll ∧ ∃ y, y ∈ rl ∧ nc y = nc n) := by
    intro n
    simp [List.mem_filter]
  have hl : ∀ n, n ∈ ll.filter (fun x => ! rl.any (fun y => nc y == nc x)) ↔
      (n ∈ ll ∧ ¬ ∃ y, y ∈ rl ∧ nc y = nc n) := by
    intro n
    simp [List.mem_filter]
  have hr : ∀ n, n ∈ rl.filter (fun y => ! ll.any (fun x => nc x == nc y)) ↔
      (n ∈ rl ∧ ¬ ∃ x, x ∈ ll ∧ nc x = nc n) := by
    intro n
    simp [List.mem_filter]
  obtain ⟨hC, hD⟩ := phase2_partition fs left right ((phase1 nc ll rl).1)
  have hcnd : ((phase1 nc ll rl).1).Nodup := by
    rw [h1]
    exact hnl.filter _
  have hfnd : ((phase2 fs left right ((phase1 nc ll rl).1)).2.1).Nodup := by
    rw [phase2_eq_filters]
    exact hcnd.filter _
  refine ⟨?_, ?_, hC, hD, ?_⟩
  · intro n
    rw [h1, h2, h3, hc n, hl n, hr n]
    constructor
    · rintro (⟨hn, _⟩ | ⟨hn, _⟩ | ⟨hn, _⟩)
      · exact Or.inl hn
      · exact Or.inl hn
      · exact Or.inr hn
    · intro hn
      by_cases hll : n ∈ ll
      · by_cases hex : ∃ y, y ∈ rl ∧ nc y = nc n
        · exact Or.inl ⟨hll, hex⟩
        · exact Or.inr (Or.inl ⟨hll, hex⟩)
      · rcases hn with hn | hn
        · exact absurd hn hll
        · refine Or.inr (Or.inr ⟨hn, ?_⟩)
          rintro ⟨x, hx, he⟩
          exact hll ((hinj x (List.mem_append_left _ hx) n
            (List.mem_append_right _ hn) he) ▸ hx)
  · intro n
    rw [h1, h2, h3]
    refine ⟨?_, ?_, ?_⟩
    · rintro ⟨hA2, hB2⟩
      rw [hc n] at hA2
      rw [hl n] at hB2
      exact hB2.2 hA2.2
    · rintro ⟨hA2, hB2⟩
      rw [hc n] at hA2
      rw [hr n] at hB2
      exact hB2.2 ⟨n, hA2.1, rfl⟩
    · rintro ⟨hA2, hB2⟩
      rw [hl n] at hA2
      rw [hr n] at hB2
      exact hB2.2 ⟨n, hA2.1, rfl⟩
  · intro s d f c' hcf
    obtain ⟨hu, hdisj⟩ := cmpfiles_partition fs left right _ sh c s d f c' hcf
    exact ⟨hu, hdisj hfnd⟩

theorem partitions_exact_witness :
    ("b.txt" ∈ (phase1 id ["a.txt", "sub"] ["a.txt", "b.txt", "sub"]).1 ∨
      "b.txt" ∈ (phase1 id ["a.txt", "sub"] ["a.txt", "b.txt", "sub"]).2.1 ∨
      "b.txt" ∈ (phase1 id ["a.txt", "sub"] ["a.txt", "b.txt", "sub"]).2.2) ↔
    ("b.txt" ∈ ["a.txt", "sub"] ∨ "b.txt" ∈ ["a.txt", "b.txt", "sub"]) :=
  (partitions_exact id demoFS "L" "R" true [] ["a.txt", "sub"]
    ["a.txt", "b.txt", "sub"] (by decide) (by decide)
    (fun x _ y _ h => h)).1 "b.txt"

/-- C6: a stat failure (`OSError`) on one individual common entry is caught
locally: in `phase2` the entry goes to `common_funny`, in
`cmpfiles`/`_cmp` the file goes to `funny_files`, and in both cases the
remaining entries of the directory pair are still processed exactly as
they would have been without the failing entry. -/
theorem stat_failure_isolated {fs : FS} {left right x : String}
    {rest : List String} {sh : Bool} {c : Cache}
    (hfail : fs (join left x) = none ∨ fs (join right x) = none) :
    phase2 fs left right (x :: rest) =
      ((phase2 fs left right rest).1, (phase2 fs left right rest).2.1,
        x :: (phase2 fs left right rest).2.2) ∧
    cmpfiles fs left right (x :: rest) sh c =
      (match cmpfiles fs left right rest sh c with
       | .error e => .error e
       | .ok ((s, d, f), c2) => .ok ((s, d, x :: f), c2)) := by
  constructor
  · rw [phase2]
    rcases hfail with h | h
    · rw [h]
    · rcases h2 : fs (join left x) with _ | sa
      · rfl
      · rw [h]
  · have hstat : _cmp fs (join left x) (join right x) sh c = .ok (2, c) := by
      rw [_cmp, cmp_stat_fail hfail]
    rw [cmpfiles, hstat]
    show (match cmpfiles fs left right rest sh c with
        | Except.error e => Except.error e
        | Except.ok ((s2, d2, f2), c2) =>
          if (2 : Fin 3) = 0 then Except.ok ((x :: s2, d2, f2), c2)
          else if (2 : Fin 3) = 1 then Except.ok ((s2, x :: d2, f2), c2)
          else Except.ok ((s2, d2, x :: f2), c2)) =
      (match cmpfiles fs left right rest sh c with
       | Except.error e => Except.error e
       | Except.ok ((s2, d2, f2), c2) => Except.ok ((s2, d2, x :: f2), c2))
    cases cmpfiles fs left right rest sh c with
    | error e => rfl
    | ok q => rfl

theorem stat_failure_isolated_witness :
    phase2 zeroFS "L" "R" ("g" :: ["f"]) =
      ((phase2 zeroFS "L" "R" ["f"]).1, (phase2 zeroFS "L" "R" ["f"]).2.1,
        "g" :: (phase2 zeroFS "L" "R" ["f"]).2.2) ∧
    cmpfiles zeroFS "L" "R" ("g" :: ["f"]) true [] =
      (match cmpfiles zeroFS "L" "R" ["f"] true [] with
       | .error e => .error e
       | .ok ((s, d, f), c2) => .ok ((s, d, "g" :: f), c2)) :=
  stat_failure_isolated (Or.inl rfl)

end Dirdiff
